import Mathlib

/-!
Verification of the radial-velocity core of the ObservationTools repository
(`rv.py`, `utils/rv_utils.py`) against its natural-language specification.

The Python code is shallowly embedded: numpy double arithmetic is modelled by
real arithmetic (`ℝ`), numpy values by the `NpVal` type below (a scalar, a
zero-dimensional array, or a one-dimensional array), Python exceptions by the
`PyExc` type together with `Except`, and Python dictionaries by association
lists.  Every definition follows the corresponding source function; deviations
of the source from the specification are recorded in the claim theorems, not
silently repaired here.
-/

namespace ObsTools

/-- Python exception classes that the embedded code can raise.
`RuntimeError` is what `true_anomaly` raises on non-convergence
(the spec's ConvergenceError class). -/
inductive PyExc where
  | TypeError
  | ValueError
  | RuntimeError
  | NotImplementedError
  | KeyError
deriving DecidableEq

/-- A numpy value flowing through the kinematics code: a Python scalar
(int/float), a zero-dimensional ndarray (as produced by `np.array(scalar)`),
or a one-dimensional ndarray. -/
inductive NpVal where
  | scalar (x : ℝ)
  | arr0d (x : ℝ)
  | arr (xs : List ℝ)

/-- A value stored in a parsed parameter dictionary: a float, a string, or a
nested dictionary (nesting occurs because `RV.from_dict` passes the whole
parameter dictionary as the single keyword argument `other_params`). -/
inductive PVal where
  | num (x : ℝ)
  | str (s : String)
  | dict (d : List (String × PVal))

/-- Lookup in a Python dictionary modelled as an association list. -/
def dictGet (d : List (String × PVal)) (k : String) : Option PVal :=
  (d.find? (fun p => p.1 == k)).map (fun p => p.2)

/-- Set one key of a Python dictionary: overwrite in place if present,
append otherwise (Python `d[k] = v`). -/
def dictSet (d : List (String × PVal)) (k : String) (v : PVal) : List (String × PVal) :=
  match d with
  | [] => [(k, v)]
  | (k0, v0) :: rest =>
      if k0 == k then (k0, v) :: rest else (k0, v0) :: dictSet rest k v

/-- Python `d.update(u)`: set every key of `u` in `d`, in order. -/
def dictUpdate (d u : List (String × PVal)) : List (String × PVal) :=
  u.foldl (fun acc p => dictSet acc p.1 p.2) d

/-! ## rv.py: parameter ingestion and the display-mode dispatch of `main` -/

/-- The list of keys whose values `main` converts to float, verbatim from
rv.py (note the trailing space in `"msini "`, exactly as in the source). -/
def float_keys : List String :=
  ["mean_val", "k1", "omega", "eccentricity", "tau", "period",
   "m_star", "msini ", "m_true"]

/-- Conversion step of `main`'s ingestion loop for one stored key/value pair:
keys in `float_keys` have their value parsed as a float (`parseFloat`
abstracts Python's `float(...)` on the already-stripped value string), all
other keys keep their string value. -/
def convert_parameter (parseFloat : String → ℝ) (key value : String) : PVal :=
  if float_keys.contains key then PVal.num (parseFloat value) else PVal.str value

/-- Outcome of `main` after parameter ingestion: either it proceeds to
`RV_phase_curve`, or the `else` branch executes `raise NotImplemented`.
`NotImplemented` is not a `BaseException`, so that statement itself fails at
runtime with a `TypeError` ("exceptions must derive from BaseException"). -/
inductive MainOutcome where
  | phase_curve
  | raises (e : PyExc)
deriving DecidableEq

/-- The display-mode dispatch at the end of `main` in rv.py:
`if mode == "phase": RV_phase_curve(parameters) else: raise NotImplemented`. -/
def main_mode (mode : String) : MainOutcome :=
  if mode == "phase" then MainOutcome.phase_curve else MainOutcome.raises PyExc.TypeError

/-! ## companion_amplitude (defined identically in rv.py and rv_utils.py) -/

/-- Companion RV amplitude: the host mass is first scaled by
`sun_jupiter_mass = 1047.56` and the result is `-k_host * m_host / m_companion`
with the scaled mass. -/
noncomputable def companion_amplitude (k_host m_host m_companion : ℝ) : ℝ :=
  -k_host * (m_host * 1047.56) / m_companion

/-! ## The RV class: state and construction -/

/-- The scalar fields of an `RV` instance together with its `params`
dictionary (`self.params = self.param_dict()` updated with the keyword
arguments collected in `**other_params`). -/
structure RVState where
  semi_amp : ℝ
  period : ℝ
  ecc : ℝ
  tau : ℝ
  gamma : ℝ
  omega : ℝ
  params : List (String × PVal)

/-- RV.param_dict: the dictionary of the six named orbital parameters. -/
def param_dict (semi_amp period ecc tau gamma omega : ℝ) : List (String × PVal) :=
  [("k1", PVal.num semi_amp), ("period", PVal.num period),
   ("eccentricity", PVal.num ecc), ("tau", PVal.num tau),
   ("mean_val", PVal.num gamma), ("omega", PVal.num omega)]

/-- RV.__init__: store the six scalars and set
`self.params = self.param_dict()` updated with the `**other_params`
keyword dictionary (the `if other_params is not None` guard in the source is
always true, a `**kwargs` dictionary is never `None`). -/
def RV.init (semi_amp period ecc tau gamma omega : ℝ)
    (other_params : List (String × PVal)) : RVState :=
  { semi_amp := semi_amp, period := period, ecc := ecc, tau := tau,
    gamma := gamma, omega := omega,
    params := dictUpdate (param_dict semi_amp period ecc tau gamma omega) other_params }

/-- RV.__init__ with every argument left at its default (all six scalars
default to `0.0` and `**other_params` collects nothing). -/
def RV.initDefault : RVState := RV.init 0 0 0 0 0 0 []

/-- RV.from_dict: extracts the six named keys (a missing key raises
`KeyError`, modelled by `none`; the extracted values are floats in every use
of this constructor) and passes the *whole* dictionary as the single keyword
argument `other_params=params`, so the collected `**other_params` mapping is
`{"other_params": params}`. -/
def RV.from_dict (params : List (String × PVal)) : Option RVState :=
  match dictGet params "k1", dictGet params "period", dictGet params "eccentricity",
        dictGet params "tau", dictGet params "mean_val", dictGet params "omega" with
  | some (PVal.num k1), some (PVal.num period), some (PVal.num ecc),
    some (PVal.num tau), some (PVal.num mean_val), some (PVal.num omega) =>
      some (RV.init k1 period ecc tau mean_val omega [("other_params", PVal.dict params)])
  | _, _, _, _, _, _ => none

/-! ## Kinematics core (static methods of RV in rv_utils.py) -/

/-- numpy's `arctan2 y x`: the argument of the complex number `x + y*i`
(range `(-π, π]`, branch-stable near the apsides as the spec notes). -/
noncomputable def arctan2 (y x : ℝ) : ℝ := Complex.arg ⟨x, y⟩

/-- One vectorised Newton-Raphson update of `true_anomaly`:
`ea ← ea - (ea - ecc*sin(ea) - ma) / (1 - ecc*cos(ea))` elementwise, with the
mean-anomaly array `ma` broadcast against the iterate `ea`. -/
noncomputable def newtonStepVec (ecc : ℝ) (ma ea : List ℝ) : List ℝ :=
  List.zipWith (fun m e => e - (e - ecc * Real.sin e - m) / (1 - ecc * Real.cos e)) ma ea

/-- The L1 norm `np.linalg.norm(ea - ea0, ord=1)` of the difference of two
equally long arrays. -/
def l1dist (xs ys : List ℝ) : ℝ := (List.zipWith (fun a b => |a - b|) xs ys).sum

/-- The Newton-Raphson loop of `true_anomaly`.  `fuel` is the number of loop
iterations still allowed before `niteration >= niterationmax` fires: the body
always runs at least once (the `or niteration == 0` disjunct), each iteration
first updates `ea`, then raises `RuntimeError` if the iteration count has
reached the cap, and otherwise the loop exits as soon as the L1 norm of the
last change is at most `1e-5`. -/
noncomputable def nrLoopVec (ecc : ℝ) (ma : List ℝ) : ℕ → List ℝ → Except PyExc (List ℝ)
  | 0, _ => Except.error PyExc.RuntimeError
  | fuel + 1, ea =>
      let ea1 := newtonStepVec ecc ma ea
      if fuel = 0 then Except.error PyExc.RuntimeError
      else if l1dist ea1 ea ≤ 1e-5 then Except.ok ea1
      else nrLoopVec ecc ma fuel ea1

/-- Conversion from converged eccentric anomaly to true anomaly:
`2 * arctan2(sqrt(1+ecc)*sin(ea/2), sqrt(1-ecc)*cos(ea/2))`. -/
noncomputable def nuFromE (ecc ea : ℝ) : ℝ :=
  2 * arctan2 (Real.sqrt (1 + ecc) * Real.sin (ea / 2))
      (Real.sqrt (1 - ecc) * Real.cos (ea / 2))

/-- RV.true_anomaly.  A scalar mean anomaly — including the `np.float64`
scalars numpy arithmetic produces, which subclass Python float and hence pass
the `isinstance(ma, (int, float))` test — is promoted to the one-element
array `np.array([ma])`; a zero-dimensional ndarray passed directly reaches
`len(ea)` which raises `TypeError` ("len() of unsized object"); an empty
array raises `ValueError`; otherwise the Newton-Raphson loop runs
(initialised at `ea0 = ma`) and the converged eccentric anomalies are mapped
to true anomalies, always returning an array. -/
noncomputable def true_anomaly (ma : NpVal) (ecc : ℝ) (niterationmax : ℕ) :
    Except PyExc NpVal :=
  match ma with
  | NpVal.arr0d _ => Except.error PyExc.TypeError
  | NpVal.scalar x =>
      (nrLoopVec ecc [x] niterationmax [x]).map
        (fun ea => NpVal.arr (ea.map (nuFromE ecc)))
  | NpVal.arr xs =>
      if xs.length = 0 then Except.error PyExc.ValueError
      else (nrLoopVec ecc xs niterationmax xs).map
        (fun ea => NpVal.arr (ea.map (nuFromE ecc)))

/-- RV.mean_anomaly: `2 * np.pi * (times - t0) / period`.  A scalar input is
first replaced by `np.array(times)` (a zero-dimensional ndarray), but numpy
arithmetic on a zero-dimensional array returns an `np.float64` scalar — a
subclass of Python float — so the value produced is again a scalar; likewise
for a zero-dimensional input.  Array inputs map elementwise. -/
noncomputable def mean_anomaly (times : NpVal) (t0 period : ℝ) : NpVal :=
  match times with
  | NpVal.scalar x => NpVal.scalar (2 * Real.pi * (x - t0) / period)
  | NpVal.arr0d x => NpVal.scalar (2 * Real.pi * (x - t0) / period)
  | NpVal.arr xs => NpVal.arr (xs.map (fun x => 2 * Real.pi * (x - t0) / period))

/-- RV.radial_velocity: `gamma + k * (np.cos(ta + omega) + ecc * np.cos(omega))`,
vectorised over the true anomaly. -/
noncomputable def radial_velocity (gamma k : ℝ) (ta : NpVal) (omega ecc : ℝ) : NpVal :=
  match ta with
  | NpVal.scalar x =>
      NpVal.scalar (gamma + k * (Real.cos (x + omega) + ecc * Real.cos omega))
  | NpVal.arr0d x =>
      NpVal.arr0d (gamma + k * (Real.cos (x + omega) + ecc * Real.cos omega))
  | NpVal.arr xs =>
      NpVal.arr (xs.map (fun x => gamma + k * (Real.cos (x + omega) + ecc * Real.cos omega)))

/-- RV.rv_at_times: composes mean_anomaly, true_anomaly (with the default
iteration cap 10000) and radial_velocity.  Note that `self.omega` is passed to
radial_velocity unchanged. -/
noncomputable def RV.rv_at_times (m : RVState) (t : NpVal) : Except PyExc NpVal :=
  (true_anomaly (mean_anomaly t m.tau m.period) m.ecc 10000).map
    (fun ta => radial_velocity m.gamma m.semi_amp ta m.omega m.ecc)

/-- Pointwise form of `t = phase * self.period + self.tau` in RV.rv_at_phase. -/
noncomputable def phaseToTime (phase : NpVal) (period tau : ℝ) : NpVal :=
  match phase with
  | NpVal.scalar x => NpVal.scalar (x * period + tau)
  | NpVal.arr0d x => NpVal.arr0d (x * period + tau)
  | NpVal.arr xs => NpVal.arr (xs.map (fun x => x * period + tau))

/-- RV.rv_at_phase: maps phase to time and delegates to rv_at_times. -/
noncomputable def RV.rv_at_phase (m : RVState) (phase : NpVal) : Except PyExc NpVal :=
  RV.rv_at_times m (phaseToTime phase m.period m.tau)

/-- rv_curve_py: the free-function RV curve, composing the same three static
methods. -/
noncomputable def rv_curve_py (times : NpVal) (gamma k omega ecc t0 period : ℝ) :
    Except PyExc NpVal :=
  (true_anomaly (mean_anomaly times t0 period) ecc 10000).map
    (fun ta => radial_velocity gamma k ta omega ecc)

/-- RV_from_params, specialised to the non-companion branch with the six
parameter values already floats (the string check in the source then passes):
it applies `np.deg2rad` to omega — `omega * π / 180` — before calling
rv_curve_py, and leaves the other parameters unchanged. -/
noncomputable def RV_from_params (t : NpVal)
    (mean_val k1 omega eccentricity tau period : ℝ) : Except PyExc NpVal :=
  rv_curve_py t mean_val k1 (omega * Real.pi / 180) eccentricity tau period

/-- Modelled from the spec: the radial-velocity equation as claim C2 states
the rv_at_times path should evaluate it, with the stored degree-valued omega
converted to radians before use:
`gamma + k*(cos(nu + omega*π/180) + ecc*cos(omega*π/180))`. -/
noncomputable def radial_velocity_degspec (gamma k nu omega ecc : ℝ) : ℝ :=
  gamma + k * (Real.cos (nu + omega * Real.pi / 180) +
    ecc * Real.cos (omega * Real.pi / 180))

/-! ## Dictionary lemmas -/

/-- Setting a key and then reading it back yields the new value. -/
theorem dictGet_dictSet (d : List (String × PVal)) (k : String) (v : PVal) :
    dictGet (dictSet d k v) k = some v := by
  induction d with
  | nil => simp [dictGet, dictSet]
  | cons hd tl ih =>
      by_cases hk : hd.1 == k
      · simp [dictGet, dictSet, hk, List.find?]
      · simpa [dictGet, dictSet, hk, List.find?] using ih

/-! ## Claim theorems: parameter ingestion, mode dispatch, companion amplitude -/

/-- C5: calling `main` with display mode `time` does not raise a
NotImplementedError-class error; the `raise NotImplemented` statement fails
with a TypeError instead, because `NotImplemented` is not an exception class.
This theorem evaluates the dispatch at the failing input. -/
theorem c5_time_mode_raises_typeerror :
    main_mode "time" = MainOutcome.raises PyExc.TypeError ∧
    PyExc.TypeError ≠ PyExc.NotImplementedError := by
  constructor
  · rfl
  · decide

/-- C6: the ingestion loop of `main` never parses a supplied `msini` value as
a float, because the numeric-key list contains the misspelled entry
`"msini "` (trailing space) which a stripped key can never equal; keys that
are in the list, such as `k1`, are parsed.  This theorem evaluates the
conversion at the failing input. -/
theorem c6_msini_stays_string (parseFloat : String → ℝ) :
    convert_parameter parseFloat "msini" "5.0" = PVal.str "5.0" ∧
    convert_parameter parseFloat "k1" "2.0" = PVal.num (parseFloat "2.0") :=
  ⟨rfl, rfl⟩

/-- C8: `companion_amplitude` returns `-k_host * (m_host * 1047.56) / m_companion`
for every nonzero companion mass, and in particular
`companion_amplitude 10 1 1047.56 = -10` exactly. -/
theorem c8_companion_amplitude :
    (∀ k_host m_host m_companion : ℝ, m_companion ≠ 0 →
      companion_amplitude k_host m_host m_companion =
        -k_host * (m_host * 1047.56) / m_companion) ∧
    companion_amplitude 10 1 1047.56 = -10 := by
  refine ⟨fun k m mc _ => rfl, ?_⟩
  show -(10 : ℝ) * (1 * 1047.56) / 1047.56 = -10
  norm_num

/-- Witness for C8 at the concrete input named by the spec. -/
theorem c8_companion_amplitude_witness :
    (1047.56 : ℝ) ≠ 0 ∧
    companion_amplitude 10 1 1047.56 = -10 * (1 * 1047.56) / 1047.56 :=
  ⟨by norm_num, c8_companion_amplitude.1 10 1 1047.56 (by norm_num)⟩

/-! ## Claim C7: extra parameter keys -/

/-- A parameter mapping with the six required keys plus the extra key
`m_star`. -/
def d7 : List (String × PVal) :=
  [("k1", PVal.num 1), ("period", PVal.num 2), ("eccentricity", PVal.num 0),
   ("tau", PVal.num 3), ("mean_val", PVal.num 4), ("omega", PVal.num 5),
   ("m_star", PVal.num 7)]

/-- The RV state that `RV.from_dict d7` constructs. -/
def st7 : RVState := RV.init 1 2 0 3 4 5 [("other_params", PVal.dict d7)]

/-- C7 counterexample: constructing an RV model from a mapping with the extra
key `m_star` does not preserve `m_star` as a top-level entry of the model's
`params` mapping — the lookup comes back empty, contradicting the claim that
it is preserved verbatim with its original value. -/
theorem c7_counterexample_m_star_not_top_level :
    RV.from_dict d7 = some st7 ∧ dictGet st7.params "m_star" = none :=
  ⟨rfl, rfl⟩

/-- C7 amended: `RV.from_dict` rejects no key, but the unrecognized keys are
not spread as top-level entries of `params`; instead the entire original
mapping is preserved, nested under the single key `other_params` (because
`from_dict` passes `other_params=params` as one keyword argument). -/
theorem c7_extras_nested_under_other_params (d : List (String × PVal))
    (st : RVState) (h : RV.from_dict d = some st) :
    dictGet st.params "other_params" = some (PVal.dict d) := by
  unfold RV.from_dict at h
  split at h
  · cases h
    show dictGet (dictUpdate _ [("other_params", PVal.dict d)]) "other_params" = _
    exact dictGet_dictSet _ _ _
  · cases h

/-- Witness for C7 at the concrete mapping `d7`. -/
theorem c7_witness :
    RV.from_dict d7 = some st7 ∧
    dictGet st7.params "other_params" = some (PVal.dict d7) :=
  ⟨rfl, c7_extras_nested_under_other_params d7 st7 rfl⟩

/-! ## Evaluation lemmas for the Newton-Raphson loop -/

/-- If the very first Newton update already moves by at most the tolerance and
at least two iterations are allowed, the loop returns that first update. -/
theorem nrLoopVec_first_step (ecc : ℝ) (ma ea : List ℝ) (fuel : ℕ) (h2 : 2 ≤ fuel)
    (hconv : l1dist (newtonStepVec ecc ma ea) ea ≤ 1e-5) :
    nrLoopVec ecc ma fuel ea = Except.ok (newtonStepVec ecc ma ea) := by
  obtain ⟨n, rfl⟩ : ∃ n, fuel = n + 1 + 1 := ⟨fuel - 2, by omega⟩
  simp only [nrLoopVec, Nat.succ_ne_zero, if_false, hconv, if_true]

/-- The L1 distance of two singleton arrays. -/
theorem l1dist_singleton (a b : ℝ) : l1dist [a] [b] = |a - b| := by
  simp [l1dist]

/-- With zero eccentricity the Newton update fixes the initial iterate
`ea0 = ma` exactly. -/
theorem newtonStepVec_zero_ecc (m : ℝ) : newtonStepVec 0 [m] [m] = [m] := by
  simp [newtonStepVec]

/-- With zero eccentricity the loop converges on the first iteration to the
mean anomaly itself. -/
theorem nrLoopVec_zero_ecc (m : ℝ) (fuel : ℕ) (h2 : 2 ≤ fuel) :
    nrLoopVec 0 [m] fuel [m] = Except.ok [m] := by
  have h := nrLoopVec_first_step 0 [m] [m] fuel h2
  rw [newtonStepVec_zero_ecc] at h
  exact h (by rw [l1dist_singleton]; norm_num)

/-- The complex number with real part 1 and imaginary part 0 is 1. -/
theorem mk_one_zero_eq_one : (⟨1, 0⟩ : ℂ) = 1 := rfl

/-- The true anomaly computed from a zero eccentric anomaly at zero
eccentricity is zero. -/
theorem nuFromE_zero : nuFromE 0 0 = 0 := by
  unfold nuFromE arctan2
  norm_num [Real.sqrt_one, mk_one_zero_eq_one, Complex.arg_one]

/-- True anomaly of the singleton zero mean-anomaly array at zero
eccentricity. -/
theorem true_anomaly_arr_zero (nmax : ℕ) (h2 : 2 ≤ nmax) :
    true_anomaly (NpVal.arr [0]) 0 nmax = Except.ok (NpVal.arr [0]) := by
  have h : true_anomaly (NpVal.arr [0]) 0 nmax =
      Except.map (fun ea => NpVal.arr (ea.map (nuFromE 0))) (nrLoopVec 0 [0] nmax [0]) := by
    simp [true_anomaly]
  rw [h, nrLoopVec_zero_ecc 0 nmax h2]
  simp [Except.map, nuFromE_zero]

/-- Concrete circular model used by several witnesses: semi_amp 1, period 1,
eccentricity 0, tau 0, gamma 0, omega 0. -/
def rvExample : RVState := RV.init 1 1 0 0 0 0 []

/-- The same model with omega set to 180 (degrees). -/
def rvOmega180 : RVState := RV.init 1 1 0 0 0 180 []

/-- Evaluation of rv_at_times for the circular example model at time 0. -/
theorem rv_at_times_rvExample :
    RV.rv_at_times rvExample (NpVal.arr [0]) = Except.ok (NpVal.arr [1]) := by
  unfold RV.rv_at_times
  have hm : mean_anomaly (NpVal.arr [0]) rvExample.tau rvExample.period = NpVal.arr [0] := by
    show NpVal.arr [2 * Real.pi * ((0 : ℝ) - 0) / 1] = NpVal.arr [0]
    norm_num
  rw [hm]
  show (true_anomaly (NpVal.arr [0]) 0 10000).map _ = _
  rw [true_anomaly_arr_zero 10000 (by norm_num)]
  show Except.ok (radial_velocity 0 1 (NpVal.arr [0]) 0 0) = _
  unfold radial_velocity
  norm_num

/-! ## Claim C2: omega is not converted to radians on the rv_at_times path -/

/-- The real number 180 is not an odd multiple of pi, so its cosine is not -1. -/
theorem cos_180_ne_neg_one : Real.cos 180 ≠ -1 := by
  intro h
  have hsq := Real.sin_sq_add_cos_sq (180 : ℝ)
  rw [h] at hsq
  have hsin : Real.sin 180 = 0 := by nlinarith [Real.sin_sq_add_cos_sq (180 : ℝ)]
  obtain ⟨n, hn⟩ := Real.sin_eq_zero_iff.mp hsin
  have hn0 : (n : ℝ) ≠ 0 := by
    intro h0
    rw [h0, zero_mul] at hn
    norm_num at hn
  have hπ : Real.pi = 180 / (n : ℝ) := by
    field_simp
    linarith [hn]
  refine irrational_pi ⟨(180 : ℚ) / (n : ℚ), ?_⟩
  rw [hπ]
  push_cast
  ring

/-- Evaluation of rv_at_times for the omega-180 model at time 0: the code
yields `cos 180` (omega in degrees fed to `cos` unconverted). -/
theorem rv_at_times_rvOmega180 :
    RV.rv_at_times rvOmega180 (NpVal.arr [0]) = Except.ok (NpVal.arr [Real.cos 180]) := by
  unfold RV.rv_at_times
  have hm : mean_anomaly (NpVal.arr [0]) rvOmega180.tau rvOmega180.period = NpVal.arr [0] := by
    show NpVal.arr [2 * Real.pi * ((0 : ℝ) - 0) / 1] = NpVal.arr [0]
    norm_num
  rw [hm]
  show (true_anomaly (NpVal.arr [0]) 0 10000).map _ = _
  rw [true_anomaly_arr_zero 10000 (by norm_num)]
  show Except.ok (radial_velocity 0 1 (NpVal.arr [0]) 180 0) = _
  unfold radial_velocity
  norm_num

/-- C2: the omega stored in degrees is NOT converted to radians on the
rv_at_times path.  At the failing input (an RV model with omega = 180 degrees,
zero eccentricity, evaluated at periastron) the code returns `cos 180`
(radians!), whereas both `RV_from_params` (which applies `np.deg2rad`) and the
claimed formula `gamma + k*(cos(nu + omega*pi/180) + e*cos(omega*pi/180))`
give `cos π = -1`, and `cos 180 ≠ -1`.  This contradicts `radial_velocity`'s
own docstring ("omega ... (radians)") and the conversion applied elsewhere in
the same class (`max_amp`) and in `RV_from_params`. -/
theorem c2_omega_not_converted_in_rv_at_times :
    RV.rv_at_times rvOmega180 (NpVal.arr [0]) = Except.ok (NpVal.arr [Real.cos 180]) ∧
    RV_from_params (NpVal.arr [0]) 0 1 180 0 0 1 = Except.ok (NpVal.arr [-1]) ∧
    radial_velocity_degspec 0 1 0 180 0 = -1 ∧
    Real.cos 180 ≠ -1 := by
  refine ⟨rv_at_times_rvOmega180, ?_, ?_, cos_180_ne_neg_one⟩
  · unfold RV_from_params rv_curve_py
    have hm : mean_anomaly (NpVal.arr [0]) 0 1 = NpVal.arr [0] := by
      show NpVal.arr [2 * Real.pi * ((0 : ℝ) - 0) / 1] = NpVal.arr [0]
      norm_num
    rw [hm, true_anomaly_arr_zero 10000 (by norm_num)]
    unfold radial_velocity
    have hω : (180 : ℝ) * Real.pi / 180 = Real.pi := by
      field_simp
    simp [hω, Real.cos_pi, Except.map, Real.cos_zero]
  · unfold radial_velocity_degspec
    have hω : (180 : ℝ) * Real.pi / 180 = Real.pi := by
      field_simp
    rw [hω]
    simp [Real.cos_pi]

/-! ## Claim C10: no validation of the period invariant -/

/-- C10: the RV constructor performs no validation: the all-defaults instance
has period = 0, mean_anomaly then divides by that zero period, and the
evaluation calls complete without any validation error (real-number model, in
which the zero-divisor division `x / 0` is the constant 0, so the whole curve
degenerates; numpy likewise raises no exception, producing nan/inf values). -/
theorem c10_no_period_validation :
    RV.initDefault.period = 0 ∧
    (∀ times t0 : ℝ, mean_anomaly (NpVal.arr [times]) t0 RV.initDefault.period =
      NpVal.arr [2 * Real.pi * (times - t0) / 0]) ∧
    (∀ t : ℝ, RV.rv_at_times RV.initDefault (NpVal.arr [t]) = Except.ok (NpVal.arr [0])) ∧
    (∀ p : ℝ, RV.rv_at_phase RV.initDefault (NpVal.arr [p]) = Except.ok (NpVal.arr [0])) := by
  have heval : ∀ t : ℝ, RV.rv_at_times RV.initDefault (NpVal.arr [t]) =
      Except.ok (NpVal.arr [0]) := by
    intro t
    unfold RV.rv_at_times
    have hm : mean_anomaly (NpVal.arr [t]) RV.initDefault.tau RV.initDefault.period =
        NpVal.arr [0] := by
      show NpVal.arr [2 * Real.pi * (t - 0) / 0] = NpVal.arr [0]
      norm_num
    rw [hm]
    show (true_anomaly (NpVal.arr [0]) 0 10000).map _ = _
    rw [true_anomaly_arr_zero 10000 (by norm_num)]
    show Except.ok (radial_velocity 0 0 (NpVal.arr [0]) 0 0) = _
    unfold radial_velocity
    norm_num
  refine ⟨rfl, fun times t0 => rfl, heval, fun p => ?_⟩
  unfold RV.rv_at_phase
  have hp : phaseToTime (NpVal.arr [p]) RV.initDefault.period RV.initDefault.tau =
      NpVal.arr [p * 0 + 0] := rfl
  rw [hp]
  have : p * 0 + 0 = 0 := by ring
  rw [this]
  exact heval 0

/-! ## Claim C9: scalar and array shapes through rv_at_times -/

/-- Length of one vectorised Newton update. -/
theorem length_newtonStepVec (ecc : ℝ) (ma ea : List ℝ) :
    (newtonStepVec ecc ma ea).length = min ma.length ea.length := by
  simp [newtonStepVec]

/-- The Newton-Raphson loop preserves the array length. -/
theorem nrLoopVec_ok_length (ecc : ℝ) (ma : List ℝ) :
    ∀ (fuel : ℕ) (ea out : List ℝ), ea.length = ma.length →
      nrLoopVec ecc ma fuel ea = Except.ok out → out.length = ma.length := by
  intro fuel
  induction fuel with
  | zero =>
      intro ea out he h
      simp [nrLoopVec] at h
  | succ n ih =>
      intro ea out he h
      simp only [nrLoopVec] at h
      by_cases h0 : n = 0
      · rw [if_pos h0] at h
        cases h
      · rw [if_neg h0] at h
        by_cases hc : l1dist (newtonStepVec ecc ma ea) ea ≤ 1e-5
        · rw [if_pos hc] at h
          cases h
          rw [length_newtonStepVec, he, min_self]
        · rw [if_neg hc] at h
          exact ih (newtonStepVec ecc ma ea) out
            (by rw [length_newtonStepVec, he, min_self]) h

/-- Shape observer for numpy values: whether a value is a bare scalar (used
to state the shape claims; arrays, including one-element ones, are not
scalars). -/
def NpVal.isScalar : NpVal → Bool
  | NpVal.scalar _ => true
  | NpVal.arr0d _ => false
  | NpVal.arr _ => false

/-- Evaluation of rv_at_times for the circular example model at the scalar
time 0: the scalar is promoted and a one-element array comes back. -/
theorem rv_at_times_rvExample_scalar :
    RV.rv_at_times rvExample (NpVal.scalar 0) = Except.ok (NpVal.arr [1]) := by
  unfold RV.rv_at_times
  have hm : mean_anomaly (NpVal.scalar 0) rvExample.tau rvExample.period =
      NpVal.scalar 0 := by
    show NpVal.scalar (2 * Real.pi * ((0 : ℝ) - 0) / 1) = NpVal.scalar 0
    norm_num
  rw [hm]
  have hta : true_anomaly (NpVal.scalar 0) 0 10000 = Except.ok (NpVal.arr [0]) := by
    show (nrLoopVec 0 [0] 10000 [0]).map _ = _
    rw [nrLoopVec_zero_ecc 0 10000 (by norm_num)]
    simp [Except.map, nuFromE_zero]
  show (true_anomaly (NpVal.scalar 0) 0 10000).map _ = _
  rw [hta]
  show Except.ok (radial_velocity 0 1 (NpVal.arr [0]) 0 0) = _
  unfold radial_velocity
  norm_num

/-- C9 counterexample: rv_at_times called with the scalar time 0 on the
circular example model returns the one-element array [1] — not a scalar
radial-velocity value (the scalar mean anomaly, an np.float64, is promoted
to `np.array([ma])` inside true_anomaly and stays an array thereafter). -/
theorem c9_counterexample_scalar_gives_array :
    RV.rv_at_times rvExample (NpVal.scalar 0) = Except.ok (NpVal.arr [1]) ∧
    (NpVal.arr [(1 : ℝ)]).isScalar = false :=
  ⟨rv_at_times_rvExample_scalar, rfl⟩

/-- C9 amended: a scalar time is accepted, but every successful scalar call
returns a one-element array (never a bare scalar), because mean_anomaly's
numpy arithmetic yields an np.float64 scalar that true_anomaly promotes to a
one-element array; a successful call on an array of times returns an array
of the same length. -/
theorem c9_scalar_promoted_array_keeps_length :
    (∀ (m : RVState) (t : ℝ) (out : NpVal),
      RV.rv_at_times m (NpVal.scalar t) = Except.ok out →
      ∃ vs : List ℝ, out = NpVal.arr vs ∧ vs.length = 1) ∧
    (∀ (m : RVState) (ts : List ℝ) (out : NpVal),
      RV.rv_at_times m (NpVal.arr ts) = Except.ok out →
      ∃ vs : List ℝ, out = NpVal.arr vs ∧ vs.length = ts.length) := by
  constructor
  · intro m t out h
    unfold RV.rv_at_times at h
    have hm : mean_anomaly (NpVal.scalar t) m.tau m.period =
        NpVal.scalar (2 * Real.pi * (t - m.tau) / m.period) := rfl
    rw [hm] at h
    set M := 2 * Real.pi * (t - m.tau) / m.period with hM
    have hta : true_anomaly (NpVal.scalar M) m.ecc 10000 =
        Except.map (fun ea => NpVal.arr (ea.map (nuFromE m.ecc)))
          (nrLoopVec m.ecc [M] 10000 [M]) := rfl
    rw [hta] at h
    cases hres : nrLoopVec m.ecc [M] 10000 [M] with
    | error e =>
        rw [hres] at h
        cases h
    | ok E =>
        rw [hres] at h
        cases h
        refine ⟨(E.map (nuFromE m.ecc)).map
          (fun x => m.gamma + m.semi_amp *
            (Real.cos (x + m.omega) + m.ecc * Real.cos m.omega)), rfl, ?_⟩
        have hlen := nrLoopVec_ok_length m.ecc [M] 10000 [M] E rfl hres
        simp [hlen]
  · intro m ts out h
    unfold RV.rv_at_times at h
    have hm : mean_anomaly (NpVal.arr ts) m.tau m.period =
        NpVal.arr (ts.map (fun x => 2 * Real.pi * (x - m.tau) / m.period)) := rfl
    rw [hm] at h
    set ys := ts.map (fun x => 2 * Real.pi * (x - m.tau) / m.period) with hys
    simp only [true_anomaly] at h
    by_cases hy : ys.length = 0
    · rw [if_pos hy] at h
      cases h
    · rw [if_neg hy] at h
      cases hres : nrLoopVec m.ecc ys 10000 ys with
      | error e =>
          rw [hres] at h
          cases h
      | ok out0 =>
          rw [hres] at h
          cases h
          refine ⟨(out0.map (nuFromE m.ecc)).map
            (fun x => m.gamma + m.semi_amp *
              (Real.cos (x + m.omega) + m.ecc * Real.cos m.omega)), rfl, ?_⟩
          have hlen := nrLoopVec_ok_length m.ecc ys 10000 ys out0 rfl hres
          simp [hlen, hys]

/-- Witness for C9 at the circular example model: the scalar call and the
singleton-array call both return the one-element array [1]. -/
theorem c9_witness :
    RV.rv_at_times rvExample (NpVal.scalar 0) = Except.ok (NpVal.arr [1]) ∧
    (∃ vs : List ℝ, NpVal.arr [(1 : ℝ)] = NpVal.arr vs ∧ vs.length = 1) ∧
    (∃ vs : List ℝ, NpVal.arr [(1 : ℝ)] = NpVal.arr vs ∧ vs.length = [(0 : ℝ)].length) :=
  ⟨rv_at_times_rvExample_scalar,
   c9_scalar_promoted_array_keeps_length.1 rvExample 0 (NpVal.arr [1])
     rv_at_times_rvExample_scalar,
   c9_scalar_promoted_array_keeps_length.2 rvExample [0] (NpVal.arr [1])
     rv_at_times_rvExample⟩

/-! ## Claim C3: the solver returns converged results or raises -/

/-- Case analysis for the Newton-Raphson loop: it either returns the result
of an update whose L1 change was within the tolerance, or it raises the
convergence RuntimeError; no other outcome exists. -/
theorem nrLoopVec_cases (ecc : ℝ) (ma : List ℝ) :
    ∀ (fuel : ℕ) (ea : List ℝ),
      (∃ prev, nrLoopVec ecc ma fuel ea = Except.ok (newtonStepVec ecc ma prev) ∧
        l1dist (newtonStepVec ecc ma prev) prev ≤ 1e-5) ∨
      nrLoopVec ecc ma fuel ea = Except.error PyExc.RuntimeError := by
  intro fuel
  induction fuel with
  | zero =>
      intro ea
      right
      simp [nrLoopVec]
  | succ n ih =>
      intro ea
      by_cases h0 : n = 0
      · right
        simp only [nrLoopVec, if_pos h0]
      · by_cases hc : l1dist (newtonStepVec ecc ma ea) ea ≤ 1e-5
        · left
          exact ⟨ea, by simp only [nrLoopVec, if_neg h0, if_pos hc], hc⟩
        · have := ih (newtonStepVec ecc ma ea)
          simpa only [nrLoopVec, if_neg h0, if_neg hc] using this

/-- C3: for every nonempty mean-anomaly array, eccentricity and iteration
cap, true_anomaly either returns the true anomalies of an eccentric-anomaly
array whose last Newton update moved by at most 1e-5 in L1 norm (a converged
result, the loop body having run at least once), or raises the
ConvergenceError-class RuntimeError; it never returns an unconverged
result. -/
theorem c3_converged_or_convergence_error (ecc : ℝ) (mas : List ℝ) (cap : ℕ)
    (hne : mas ≠ []) :
    (∃ prev E : List ℝ, nrLoopVec ecc mas cap mas = Except.ok E ∧
      E = newtonStepVec ecc mas prev ∧ l1dist E prev ≤ 1e-5 ∧
      true_anomaly (NpVal.arr mas) ecc cap =
        Except.ok (NpVal.arr (E.map (nuFromE ecc)))) ∨
    true_anomaly (NpVal.arr mas) ecc cap = Except.error PyExc.RuntimeError := by
  have hlen : mas.length ≠ 0 := fun h => hne (List.length_eq_zero.mp h)
  have hta : true_anomaly (NpVal.arr mas) ecc cap =
      Except.map (fun ea => NpVal.arr (ea.map (nuFromE ecc)))
        (nrLoopVec ecc mas cap mas) := by
    simp only [true_anomaly, if_neg hlen]
  rcases nrLoopVec_cases ecc mas cap mas with ⟨prev, hok, hconv⟩ | herr
  · left
    exact ⟨prev, newtonStepVec ecc mas prev, hok, rfl, hconv, by rw [hta, hok]; rfl⟩
  · right
    rw [hta, herr]
    rfl

/-- Witness for C3 at eccentricity 0, mean-anomaly array [0] and the default
cap. -/
theorem c3_witness :
    ([(0 : ℝ)] ≠ []) ∧
    ((∃ prev E : List ℝ, nrLoopVec 0 [0] 10000 [0] = Except.ok E ∧
      E = newtonStepVec 0 [0] prev ∧ l1dist E prev ≤ 1e-5 ∧
      true_anomaly (NpVal.arr [0]) 0 10000 =
        Except.ok (NpVal.arr (E.map (nuFromE 0)))) ∨
    true_anomaly (NpVal.arr [0]) 0 10000 = Except.error PyExc.RuntimeError) :=
  ⟨by simp, c3_converged_or_convergence_error 0 [0] 10000 (by simp)⟩

/-! ## Claim C1: residual of the converged Kepler solution -/

/-- The cosine is 1-Lipschitz. -/
theorem abs_cos_sub_cos_le (x a : ℝ) : |Real.cos x - Real.cos a| ≤ |x - a| := by
  have h2 : |Real.sin ((x - a) / 2)| ≤ |x - a| / 2 := by
    have h : |Real.sin ((x - a) / 2)| ≤ |(x - a) / 2| := Real.abs_sin_le_abs
    calc |Real.sin ((x - a) / 2)| ≤ |(x - a) / 2| := h
    _ = |x - a| / 2 := by rw [abs_div]; norm_num
  calc |Real.cos x - Real.cos a|
      = |(-2) * Real.sin ((x + a) / 2) * Real.sin ((x - a) / 2)| := by
        rw [Real.cos_sub_cos]
    _ = 2 * |Real.sin ((x + a) / 2)| * |Real.sin ((x - a) / 2)| := by
        rw [abs_mul, abs_mul]
        norm_num
    _ ≤ 2 * 1 * (|x - a| / 2) := by
        have h1 : |Real.sin ((x + a) / 2)| ≤ 1 := Real.abs_sin_le_one _
        gcongr
    _ = |x - a| := by ring

/-- First-order Taylor bound for the sine function with a quadratic error
term, obtained from the mean value inequality. -/
theorem sin_linearization_bound (a b : ℝ) :
    |Real.sin b - Real.sin a - (b - a) * Real.cos a| ≤ (b - a) ^ 2 := by
  rcases le_total a b with hab | hab
  · have hf : ∀ x ∈ Set.Icc a b,
        HasDerivWithinAt (fun y => Real.sin y - y * Real.cos a)
          (Real.cos x - Real.cos a) (Set.Icc a b) x := fun x _ =>
      ((Real.hasDerivAt_sin x).sub (hasDerivAt_mul_const (Real.cos a))).hasDerivWithinAt
    have hbound : ∀ x ∈ Set.Ico a b, ‖Real.cos x - Real.cos a‖ ≤ |b - a| := by
      intro x hx
      rw [Real.norm_eq_abs]
      calc |Real.cos x - Real.cos a| ≤ |x - a| := abs_cos_sub_cos_le x a
      _ ≤ |b - a| := by
          rw [abs_of_nonneg (by linarith [hx.1] : (0:ℝ) ≤ x - a),
            abs_of_nonneg (by linarith : (0:ℝ) ≤ b - a)]
          linarith [hx.2]
    have h := norm_image_sub_le_of_norm_deriv_le_segment' hf hbound b
      (Set.right_mem_Icc.mpr hab)
    rw [Real.norm_eq_abs] at h
    calc |Real.sin b - Real.sin a - (b - a) * Real.cos a|
        = |(Real.sin b - b * Real.cos a) - (Real.sin a - a * Real.cos a)| := by
          congr 1
          ring
      _ ≤ |b - a| * (b - a) := h
      _ = (b - a) ^ 2 := by
          rw [abs_of_nonneg (by linarith : (0:ℝ) ≤ b - a)]
          ring
  · have hf : ∀ x ∈ Set.Icc b a,
        HasDerivWithinAt (fun y => Real.sin y - y * Real.cos a)
          (Real.cos x - Real.cos a) (Set.Icc b a) x := fun x _ =>
      ((Real.hasDerivAt_sin x).sub (hasDerivAt_mul_const (Real.cos a))).hasDerivWithinAt
    have hbound : ∀ x ∈ Set.Ico b a, ‖Real.cos x - Real.cos a‖ ≤ |b - a| := by
      intro x hx
      rw [Real.norm_eq_abs]
      calc |Real.cos x - Real.cos a| ≤ |x - a| := abs_cos_sub_cos_le x a
      _ ≤ |b - a| := by
          rw [abs_of_nonpos (by linarith [hx.2] : x - a ≤ 0),
            abs_of_nonpos (by linarith : b - a ≤ 0)]
          linarith [hx.1]
    have h := norm_image_sub_le_of_norm_deriv_le_segment' hf hbound a
      (Set.right_mem_Icc.mpr hab)
    rw [Real.norm_eq_abs] at h
    calc |Real.sin b - Real.sin a - (b - a) * Real.cos a|
        = |(Real.sin a - a * Real.cos a) - (Real.sin b - b * Real.cos a)| := by
          rw [abs_sub_comm]
          congr 1
          ring
      _ ≤ |b - a| * (a - b) := h
      _ = (b - a) ^ 2 := by
          rw [abs_of_nonpos (by linarith : b - a ≤ 0)]
          ring

/-- After a Newton update whose step size is within the tolerance, the
Kepler-equation residual at the updated point is bounded by the square of the
step, hence far below the tolerance. -/
theorem newton_residual_bound (ecc ma p E : ℝ) (h0 : 0 ≤ ecc) (h1 : ecc < 1)
    (hE : E = p - (p - ecc * Real.sin p - ma) / (1 - ecc * Real.cos p))
    (hd : |E - p| ≤ 1e-5) :
    |E - ecc * Real.sin E - ma| ≤ 1e-5 := by
  have hden : (0:ℝ) < 1 - ecc * Real.cos p := by
    have h2 : ecc * Real.cos p ≤ ecc := by
      calc ecc * Real.cos p ≤ ecc * 1 :=
        mul_le_mul_of_nonneg_left (Real.cos_le_one p) h0
      _ = ecc := mul_one ecc
    linarith
  have hfp : p - ecc * Real.sin p - ma = -(E - p) * (1 - ecc * Real.cos p) := by
    rw [hE]
    field_simp
    ring
  have hres : E - ecc * Real.sin E - ma =
      ecc * ((E - p) * Real.cos p - (Real.sin E - Real.sin p)) := by
    have hsplit : E - ecc * Real.sin E - ma =
        (p - ecc * Real.sin p - ma) + (E - p) - ecc * (Real.sin E - Real.sin p) := by
      ring
    rw [hsplit, hfp]
    ring
  rw [hres]
  have hb : |(E - p) * Real.cos p - (Real.sin E - Real.sin p)| ≤ (E - p) ^ 2 := by
    calc |(E - p) * Real.cos p - (Real.sin E - Real.sin p)|
        = |Real.sin E - Real.sin p - (E - p) * Real.cos p| := by rw [abs_sub_comm]
    _ ≤ (E - p) ^ 2 := sin_linearization_bound p E
  calc |ecc * ((E - p) * Real.cos p - (Real.sin E - Real.sin p))|
      = ecc * |(E - p) * Real.cos p - (Real.sin E - Real.sin p)| := by
        rw [abs_mul, abs_of_nonneg h0]
    _ ≤ 1 * (E - p) ^ 2 := mul_le_mul h1.le hb (abs_nonneg _) zero_le_one
    _ = (E - p) ^ 2 := one_mul _
    _ = |E - p| ^ 2 := (sq_abs _).symm
    _ ≤ (1e-5) ^ 2 := pow_le_pow_left₀ (abs_nonneg _) hd 2
    _ ≤ 1e-5 := by norm_num

/-- The true anomaly at zero eccentricity differs from the eccentric anomaly
by an integer multiple of two pi. -/
theorem nuFromE_zero_ecc_congruent (ma : ℝ) :
    ∃ k : ℤ, nuFromE 0 ma = ma + 2 * Real.pi * k := by
  unfold nuFromE arctan2
  rw [add_zero, sub_zero, Real.sqrt_one, one_mul, one_mul]
  have hz : (⟨Real.cos (ma / 2), Real.sin (ma / 2)⟩ : ℂ) =
      Real.Angle.cos ((ma / 2 : ℝ) : Real.Angle) +
        Real.Angle.sin ((ma / 2 : ℝ) : Real.Angle) * Complex.I := by
    rw [Real.Angle.cos_coe, Real.Angle.sin_coe, Complex.mk_eq_add_mul_I]
  have harg := Complex.arg_cos_add_sin_mul_I_coe_angle ((ma / 2 : ℝ) : Real.Angle)
  rw [← hz] at harg
  rw [Real.Angle.angle_eq_iff_two_pi_dvd_sub] at harg
  obtain ⟨k, hk⟩ := harg
  refine ⟨2 * k, ?_⟩
  push_cast
  linarith

/-- C1: whenever true_anomaly returns on a scalar mean anomaly with
eccentricity in [0, 1), the returned true anomaly is the image under the
atan2 conversion of an eccentric anomaly E whose Kepler-equation residual
`E - e*sin(E) - M` is at most 1e-5 in absolute value; and at zero
eccentricity the call always succeeds, with true anomaly congruent to the
mean anomaly modulo 2*pi. -/
theorem c1_kepler_residual :
    (∀ (ecc ma : ℝ) (ν : NpVal), 0 ≤ ecc → ecc < 1 →
      true_anomaly (NpVal.scalar ma) ecc 10000 = Except.ok ν →
      ∃ E : ℝ, ν = NpVal.arr [nuFromE ecc E] ∧
        |E - ecc * Real.sin E - ma| ≤ 1e-5) ∧
    (∀ ma : ℝ, ∃ k : ℤ, true_anomaly (NpVal.scalar ma) 0 10000 =
      Except.ok (NpVal.arr [ma + 2 * Real.pi * k])) := by
  constructor
  · intro ecc ma ν h0 h1 h
    have hta : true_anomaly (NpVal.scalar ma) ecc 10000 =
        Except.map (fun ea => NpVal.arr (ea.map (nuFromE ecc)))
          (nrLoopVec ecc [ma] 10000 [ma]) := rfl
    rw [hta] at h
    rcases nrLoopVec_cases ecc [ma] 10000 [ma] with ⟨prev, hok, hconv⟩ | herr
    · have hlen := nrLoopVec_ok_length ecc [ma] 10000 [ma] _ rfl hok
      cases prev with
      | nil => simp [newtonStepVec] at hlen
      | cons p rest =>
          have hstep : newtonStepVec ecc [ma] (p :: rest) =
              [p - (p - ecc * Real.sin p - ma) / (1 - ecc * Real.cos p)] := rfl
          rw [hok, hstep] at h
          have hν : ν = NpVal.arr
              [nuFromE ecc (p - (p - ecc * Real.sin p - ma) / (1 - ecc * Real.cos p))] := by
            cases h
            rfl
          have hconv2 :
              |p - (p - ecc * Real.sin p - ma) / (1 - ecc * Real.cos p) - p| ≤ 1e-5 := by
            have hl : l1dist (newtonStepVec ecc [ma] (p :: rest)) (p :: rest) =
                |p - (p - ecc * Real.sin p - ma) / (1 - ecc * Real.cos p) - p| := by
              rw [hstep]
              simp [l1dist]
            rw [hl] at hconv
            exact hconv
          exact ⟨p - (p - ecc * Real.sin p - ma) / (1 - ecc * Real.cos p), hν,
            newton_residual_bound ecc ma p _ h0 h1 rfl hconv2⟩
    · rw [herr] at h
      cases h
  · intro ma
    obtain ⟨k, hk⟩ := nuFromE_zero_ecc_congruent ma
    refine ⟨k, ?_⟩
    show (nrLoopVec 0 [ma] 10000 [ma]).map _ = _
    rw [nrLoopVec_zero_ecc ma 10000 (by norm_num)]
    simp [Except.map, hk]

/-- Witness for C1 at eccentricity 0 and mean anomaly 0 (the solver returns
the zero true anomaly there). -/
theorem c1_witness :
    ((0 : ℝ) ≤ 0) ∧ ((0 : ℝ) < 1) ∧
    (∃ E : ℝ, NpVal.arr [(0 : ℝ)] = NpVal.arr [nuFromE 0 E] ∧
      |E - 0 * Real.sin E - 0| ≤ 1e-5) := by
  refine ⟨le_refl 0, by norm_num,
    c1_kepler_residual.1 0 0 (NpVal.arr [0]) (le_refl 0) (by norm_num) ?_⟩
  show (nrLoopVec 0 [0] 10000 [0]).map _ = _
  rw [nrLoopVec_zero_ecc 0 10000 (by norm_num)]
  simp [Except.map, nuFromE_zero]

/-! ## Claim C4: periodicity of the radial-velocity curve -/

/-- Shifting both the mean anomaly and the iterate by two pi commutes with
the Newton update. -/
theorem newtonStepVec_shift (ecc : ℝ) (ma ea : List ℝ) :
    newtonStepVec ecc (ma.map (fun x => x + 2 * Real.pi))
        (ea.map (fun x => x + 2 * Real.pi)) =
      (newtonStepVec ecc ma ea).map (fun x => x + 2 * Real.pi) := by
  unfold newtonStepVec
  rw [List.zipWith_map, List.map_zipWith]
  have hfun : (fun (m e : ℝ) =>
        (fun m e => e - (e - ecc * Real.sin e - m) / (1 - ecc * Real.cos e))
          (m + 2 * Real.pi) (e + 2 * Real.pi)) =
      fun (m e : ℝ) =>
        (fun x => x + 2 * Real.pi)
          (e - (e - ecc * Real.sin e - m) / (1 - ecc * Real.cos e)) := by
    funext m e
    show e + 2 * Real.pi -
        (e + 2 * Real.pi - ecc * Real.sin (e + 2 * Real.pi) - (m + 2 * Real.pi)) /
          (1 - ecc * Real.cos (e + 2 * Real.pi)) =
      e - (e - ecc * Real.sin e - m) / (1 - ecc * Real.cos e) + 2 * Real.pi
    rw [Real.sin_add_two_pi, Real.cos_add_two_pi]
    ring_nf
  rw [hfun]

/-- The L1 distance is invariant under shifting both arrays by two pi. -/
theorem l1dist_shift (xs ys : List ℝ) :
    l1dist (xs.map (fun x => x + 2 * Real.pi)) (ys.map (fun x => x + 2 * Real.pi)) =
      l1dist xs ys := by
  unfold l1dist
  rw [List.zipWith_map]
  have hfun : (fun (a b : ℝ) =>
        (fun a b => |a - b|) (a + 2 * Real.pi) (b + 2 * Real.pi)) =
      fun (a b : ℝ) => |a - b| := by
    funext a b
    show |a + 2 * Real.pi - (b + 2 * Real.pi)| = |a - b|
    ring_nf
  rw [hfun]

/-- The whole Newton-Raphson loop is equivariant under shifting the mean
anomalies and the initial iterate by two pi. -/
theorem nrLoopVec_shift (ecc : ℝ) (ma : List ℝ) :
    ∀ (fuel : ℕ) (ea : List ℝ),
      nrLoopVec ecc (ma.map (fun x => x + 2 * Real.pi)) fuel
          (ea.map (fun x => x + 2 * Real.pi)) =
        Except.map (List.map (fun x => x + 2 * Real.pi)) (nrLoopVec ecc ma fuel ea) := by
  intro fuel
  induction fuel with
  | zero =>
      intro ea
      simp [nrLoopVec, Except.map]
  | succ n ih =>
      intro ea
      simp only [nrLoopVec, newtonStepVec_shift, l1dist_shift]
      by_cases h0 : n = 0
      · rw [if_pos h0, if_pos h0]
        rfl
      · rw [if_neg h0, if_neg h0]
        by_cases hc : l1dist (newtonStepVec ecc ma ea) ea ≤ 1e-5
        · rw [if_pos hc, if_pos hc]
          rfl
        · rw [if_neg hc, if_neg hc]
          exact ih (newtonStepVec ecc ma ea)

/-- The atan2 argument vector of the true-anomaly conversion is a nonzero
complex number whenever the eccentricity lies in [0, 1). -/
theorem nuArg_ne_zero (ecc E : ℝ) (h0 : 0 ≤ ecc) (h1 : ecc < 1) :
    (⟨Real.sqrt (1 - ecc) * Real.cos (E / 2),
      Real.sqrt (1 + ecc) * Real.sin (E / 2)⟩ : ℂ) ≠ 0 := by
  intro hz0
  have hre : Real.sqrt (1 - ecc) * Real.cos (E / 2) = 0 := by
    have := congrArg Complex.re hz0
    simpa using this
  have him : Real.sqrt (1 + ecc) * Real.sin (E / 2) = 0 := by
    have := congrArg Complex.im hz0
    simpa using this
  have hsp : 0 < Real.sqrt (1 + ecc) := Real.sqrt_pos.mpr (by linarith)
  have hsm : 0 < Real.sqrt (1 - ecc) := Real.sqrt_pos.mpr (by linarith)
  have hsin : Real.sin (E / 2) = 0 := by
    rcases mul_eq_zero.mp him with h | h
    · exact absurd h hsp.ne'
    · exact h
  have hcos : Real.cos (E / 2) = 0 := by
    rcases mul_eq_zero.mp hre with h | h
    · exact absurd h hsm.ne'
    · exact h
  have hpyth := Real.sin_sq_add_cos_sq (E / 2)
  rw [hsin, hcos] at hpyth
  norm_num at hpyth

/-- Shifting the eccentric anomaly by two pi changes the true anomaly by a
multiple of two pi: the two agree as angles. -/
theorem nuFromE_angle_shift (ecc E : ℝ) (h0 : 0 ≤ ecc) (h1 : ecc < 1) :
    ((nuFromE ecc (E + 2 * Real.pi) : ℝ) : Real.Angle) =
      ((nuFromE ecc E : ℝ) : Real.Angle) := by
  have hneg : (⟨Real.sqrt (1 - ecc) * Real.cos ((E + 2 * Real.pi) / 2),
      Real.sqrt (1 + ecc) * Real.sin ((E + 2 * Real.pi) / 2)⟩ : ℂ) =
      -(⟨Real.sqrt (1 - ecc) * Real.cos (E / 2),
        Real.sqrt (1 + ecc) * Real.sin (E / 2)⟩ : ℂ) := by
    have hhalf : (E + 2 * Real.pi) / 2 = E / 2 + Real.pi := by ring
    rw [hhalf, Real.cos_add_pi, Real.sin_add_pi]
    apply Complex.ext
    · simp [mul_neg]
    · simp [mul_neg]
  unfold nuFromE arctan2
  rw [hneg]
  have harg := Complex.arg_neg_coe_angle (nuArg_ne_zero ecc E h0 h1)
  rw [two_mul, two_mul, Real.Angle.coe_add, Real.Angle.coe_add, harg]
  have h2pi : (Real.pi : Real.Angle) + (Real.pi : Real.Angle) = 0 := by
    rw [← Real.Angle.coe_add, show Real.pi + Real.pi = 2 * Real.pi by ring]
    exact Real.Angle.coe_two_pi
  rw [add_add_add_comm, h2pi, add_zero]

/-- The radial-velocity cosine term is unchanged when the eccentric anomaly
is shifted by two pi. -/
theorem cos_nuFromE_shift (ecc E ω : ℝ) (h0 : 0 ≤ ecc) (h1 : ecc < 1) :
    Real.cos (nuFromE ecc (E + 2 * Real.pi) + ω) = Real.cos (nuFromE ecc E + ω) := by
  have hangle : ((nuFromE ecc (E + 2 * Real.pi) + ω : ℝ) : Real.Angle) =
      ((nuFromE ecc E + ω : ℝ) : Real.Angle) := by
    rw [Real.Angle.coe_add, Real.Angle.coe_add, nuFromE_angle_shift ecc E h0 h1]
  calc Real.cos (nuFromE ecc (E + 2 * Real.pi) + ω)
      = Real.Angle.cos ((nuFromE ecc (E + 2 * Real.pi) + ω : ℝ) : Real.Angle) :=
        (Real.Angle.cos_coe _).symm
    _ = Real.Angle.cos ((nuFromE ecc E + ω : ℝ) : Real.Angle) := by rw [hangle]
    _ = Real.cos (nuFromE ecc E + ω) := Real.Angle.cos_coe _

/-- C4: for an RV model with positive period and eccentricity in [0, 1) the
radial-velocity curve is exactly periodic in the orbital period: evaluating
rv_at_times at every time shifted by one period reproduces the original
result (values and errors alike), and rv_at_phase at phase 1 equals
rv_at_phase at phase 0. -/
theorem c4_periodicity (m : RVState) (hP : 0 < m.period) (he0 : 0 ≤ m.ecc)
    (he1 : m.ecc < 1) :
    (∀ ts : List ℝ, RV.rv_at_times m (NpVal.arr (ts.map (fun t => t + m.period))) =
      RV.rv_at_times m (NpVal.arr ts)) ∧
    RV.rv_at_phase m (NpVal.arr [1]) = RV.rv_at_phase m (NpVal.arr [0]) := by
  have hmain : ∀ ts : List ℝ,
      RV.rv_at_times m (NpVal.arr (ts.map (fun t => t + m.period))) =
        RV.rv_at_times m (NpVal.arr ts) := by
    intro ts
    have hcomp : (ts.map (fun t => t + m.period)).map
          (fun x => 2 * Real.pi * (x - m.tau) / m.period) =
        (ts.map (fun x => 2 * Real.pi * (x - m.tau) / m.period)).map
          (fun x => x + 2 * Real.pi) := by
      rw [List.map_map, List.map_map]
      congr 1
      funext t
      show 2 * Real.pi * (t + m.period - m.tau) / m.period =
        2 * Real.pi * (t - m.tau) / m.period + 2 * Real.pi
      field_simp
      ring
    set mas := ts.map (fun x => 2 * Real.pi * (x - m.tau) / m.period) with hmas
    have hm1 : mean_anomaly (NpVal.arr (ts.map (fun t => t + m.period))) m.tau m.period =
        NpVal.arr (mas.map (fun x => x + 2 * Real.pi)) := by
      show NpVal.arr ((ts.map (fun t => t + m.period)).map
        (fun x => 2 * Real.pi * (x - m.tau) / m.period)) = _
      rw [hcomp]
    have hm2 : mean_anomaly (NpVal.arr ts) m.tau m.period = NpVal.arr mas := rfl
    unfold RV.rv_at_times
    rw [hm1, hm2]
    by_cases hlen : mas.length = 0
    · have hlen2 : (mas.map (fun x => x + 2 * Real.pi)).length = 0 := by simp [hlen]
      simp only [true_anomaly, if_pos hlen, if_pos hlen2]
    · have hlen2 : ¬((mas.map (fun x => x + 2 * Real.pi)).length = 0) := by
        simpa using hlen
      simp only [true_anomaly, if_neg hlen, if_neg hlen2]
      rw [nrLoopVec_shift m.ecc mas 10000 mas]
      cases hE : nrLoopVec m.ecc mas 10000 mas with
      | error e => rfl
      | ok E =>
          have hfun : (((fun x => m.gamma + m.semi_amp *
                  (Real.cos (x + m.omega) + m.ecc * Real.cos m.omega)) ∘
                nuFromE m.ecc) ∘ fun x => x + 2 * Real.pi) =
              ((fun x => m.gamma + m.semi_amp *
                  (Real.cos (x + m.omega) + m.ecc * Real.cos m.omega)) ∘
                nuFromE m.ecc) := by
            funext x
            simp only [Function.comp]
            rw [cos_nuFromE_shift m.ecc x m.omega he0 he1]
          show Except.ok (radial_velocity m.gamma m.semi_amp
              (NpVal.arr ((E.map (fun x => x + 2 * Real.pi)).map (nuFromE m.ecc)))
              m.omega m.ecc) =
            Except.ok (radial_velocity m.gamma m.semi_amp
              (NpVal.arr (E.map (nuFromE m.ecc))) m.omega m.ecc)
          show Except.ok (NpVal.arr
              (((E.map (fun x => x + 2 * Real.pi)).map (nuFromE m.ecc)).map
                (fun x => m.gamma + m.semi_amp *
                  (Real.cos (x + m.omega) + m.ecc * Real.cos m.omega)))) =
            Except.ok (NpVal.arr ((E.map (nuFromE m.ecc)).map
              (fun x => m.gamma + m.semi_amp *
                (Real.cos (x + m.omega) + m.ecc * Real.cos m.omega))))
          rw [List.map_map, List.map_map, List.map_map, hfun]
  refine ⟨hmain, ?_⟩
  have hp1 : RV.rv_at_phase m (NpVal.arr [1]) =
      RV.rv_at_times m (NpVal.arr [1 * m.period + m.tau]) := rfl
  have hp0 : RV.rv_at_phase m (NpVal.arr [0]) =
      RV.rv_at_times m (NpVal.arr [0 * m.period + m.tau]) := rfl
  rw [hp1, hp0]
  have hshift : [1 * m.period + m.tau] =
      ([0 * m.period + m.tau] : List ℝ).map (fun t => t + m.period) := by
    simp
    ring
  rw [hshift]
  exact hmain [0 * m.period + m.tau]

/-- Witness for C4 at the circular example model. -/
theorem c4_witness :
    (0 : ℝ) < rvExample.period ∧ (0 : ℝ) ≤ rvExample.ecc ∧ rvExample.ecc < 1 ∧
    RV.rv_at_phase rvExample (NpVal.arr [1]) = RV.rv_at_phase rvExample (NpVal.arr [0]) := by
  have h01 : (0 : ℝ) < 1 := by norm_num
  exact ⟨h01, le_refl 0, h01,
    (c4_periodicity rvExample h01 (le_refl 0) h01).2⟩

end ObsTools
